import Mathlib

/-!
Verification of the result-management core of a secret-scanning tool
(`detect_secrets/core/secrets_collection.py`).

The collection is a mapping from file path to a set of findings
(`PotentialSecret`).  Python's per-file `set` (hashed by the finding's
identity key) is embedded as a `List PotentialSecret`; the reachable states
of the program never hold two findings with the same identity key in one
file's set, which is expressed by the well-formedness predicate `WF` below.
Python's `dict` of files is embedded as an association list whose keys are
distinct in every reachable state.
-/

namespace DetectSecrets

/-- Modelled from the spec: the `PotentialSecret` (Finding) class lives
outside the given source tree; per the spec it is a value with a type tag,
a content-derived fingerprint (`secret_hash`), a line number (`0` meaning
"not tracked"), the raw secret value, and mutable audit fields
`is_secret` (tri-state: `none` = unknown) and `is_verified`. -/
structure PotentialSecret where
  type : String
  filename : String
  secret_hash : String
  line_number : Nat
  is_secret : Option Bool
  is_verified : Bool
  secret_value : String
deriving DecidableEq, Repr

/-- Modelled from the spec: two findings are "the same occurrence" iff their
(fingerprint, type tag) pair matches, scoped within a single file's set. -/
def idKey (s : PotentialSecret) : String × String :=
  (s.secret_hash, s.type)

/-- `SecretsCollection.data`: mapping from file path to that file's set of
findings, embedded as an association list. -/
structure SecretsCollection where
  data : List (String × List PotentialSecret)
deriving DecidableEq, Repr

/-- The key set `self.files` (as a list of keys; reachable states have
distinct keys). -/
def keys (l : List (String × List PotentialSecret)) : List String :=
  l.map Prod.fst

def files (c : SecretsCollection) : List String :=
  keys c.data

/-- `self[filename]` — dictionary access; a missing key yields the empty
set (the source dictionary is a `defaultdict(set)`). -/
def lookupFile : List (String × List PotentialSecret) → String → List PotentialSecret
  | [], _ => []
  | p :: rest, f => if p.1 = f then p.2 else lookupFile rest f

/-- Python-set / dict membership test on a file's set by identity key:
returns the member with the given identity key, if any. -/
def findByKey : List PotentialSecret → String × String → Option PotentialSecret
  | [], _ => none
  | s :: rest, k => if idKey s = k then some s else findByKey rest k

/-- Well-formedness of the reachable states: file keys are distinct and no
two findings in one file's set share an identity key. -/
def WF (c : SecretsCollection) : Prop :=
  (files c).Nodup ∧ ∀ p ∈ c.data, (p.2.map idKey).Nodup

instance : DecidablePred WF := fun c =>
  inferInstanceAs (Decidable ((files c).Nodup ∧ ∀ p ∈ c.data, (p.2.map idKey).Nodup))

/-! ## merge (`SecretsCollection.merge`) -/

/-- The body of the inner loop of `merge`: given the matched current
finding (`cur`, i.e. `mapping[old_secret]`) and the old finding, override
`is_secret` only if the current value is `None`, and override `is_verified`
only if the current value is false. -/
def mergeSecret (cur old : PotentialSecret) : PotentialSecret :=
  let cur1 := if cur.is_secret = none then { cur with is_secret := old.is_secret } else cur
  if cur1.is_verified = false then { cur1 with is_verified := old.is_verified } else cur1

/-- The per-file loop of `merge`: for every old finding, update the current
finding with the same identity key (if any) via `mergeSecret`. -/
def mergeFile (curSecs oldSecs : List PotentialSecret) : List PotentialSecret :=
  oldSecs.foldl
    (fun acc o => acc.map (fun c => if idKey c = idKey o then mergeSecret c o else c))
    curSecs

/-- `SecretsCollection.merge(old_results)`: files of `self` shared with
`old_results` get their findings' audit fields folded in; the mutation of
`self` is embedded as returning the updated collection. -/
def merge (self old_results : SecretsCollection) : SecretsCollection :=
  ⟨self.data.map (fun p =>
    if p.1 ∈ files old_results then (p.1, mergeFile p.2 (lookupFile old_results.data p.1))
    else p)⟩

/-- The cumulative effect of `merge`'s inner loop on a single current
finding: every old finding with the same identity key is folded in, in
order. -/
def applyOlds (olds : List PotentialSecret) (c : PotentialSecret) : PotentialSecret :=
  olds.foldl (fun x o => if idKey x = idKey o then mergeSecret x o else x) c

/-- The non-audit fields of a finding; `merge` must leave them unchanged. -/
def frameFields (s : PotentialSecret) : String × String × String × Nat × String :=
  (s.type, s.filename, s.secret_hash, s.line_number, s.secret_value)

/-! ### Concrete sample data

Used to instantiate the universally quantified theorems below on
executable inputs. -/

def sampleCur : PotentialSecret :=
  ⟨"AWSKeyDetector", "a.py", "H1", 3, none, false, "raw"⟩

def sampleOld : PotentialSecret :=
  ⟨"AWSKeyDetector", "a.py", "H1", 5, some true, true, "raw"⟩

def sampleSelf : SecretsCollection := ⟨[("a.py", [sampleCur])]⟩

def sampleOldColl : SecretsCollection := ⟨[("a.py", [sampleOld])]⟩

/-- A baseline finding whose identity key does not reappear in the rescan. -/
def c1orig : PotentialSecret :=
  ⟨"AWSKeyDetector", "a.py", "H1", 3, some true, false, "raw"⟩

/-- A rescanned finding with a different identity key. -/
def c1new : PotentialSecret :=
  ⟨"AWSKeyDetector", "a.py", "H2", 5, none, false, "raw2"⟩

def c1self : SecretsCollection := ⟨[("a.py", [c1orig])]⟩

def c1scan : SecretsCollection := ⟨[("a.py", [c1new])]⟩

/-- A rescanned finding with `sampleCur`'s identity key at a new line. -/
def c7scanSec : PotentialSecret :=
  ⟨"AWSKeyDetector", "a.py", "H1", 9, none, false, "raw"⟩

def c7scan : SecretsCollection := ⟨[("a.py", [c7scanSec])]⟩

/-- A two-file collection: one path gone from disk, one still present. -/
def c6self : SecretsCollection :=
  ⟨[("gone.py", [c1orig]), ("kept.py", [c1new])]⟩

def c6exists : String → Bool := fun f => decide (f = "kept.py")

/-- Sample data for subtraction: `c4A` has one finding surviving the
difference, one removed by it, and one file untouched by `c4B`. -/
def c4keep : PotentialSecret := ⟨"Det", "a.py", "K", 1, none, false, "v1"⟩

def c4drop : PotentialSecret := ⟨"Det", "a.py", "D", 2, none, false, "v2"⟩

def c4dropB : PotentialSecret := ⟨"Det", "a.py", "D", 7, some false, true, "v3"⟩

def c4only : PotentialSecret := ⟨"Det", "only.py", "O", 4, none, false, "v4"⟩

def c4A : SecretsCollection :=
  ⟨[("a.py", [c4keep, c4drop]), ("only.py", [c4only])]⟩

def c4B : SecretsCollection :=
  ⟨[("a.py", [c4dropB]), ("b.py", [c4dropB])]⟩

/-- An identity-matched pair differing in line number (one side zero,
untracked) and also in an audit field (`is_verified`). -/
def c3sa : PotentialSecret := ⟨"Det", "a.py", "H", 0, none, false, "v"⟩

def c3sb : PotentialSecret := ⟨"Det", "a.py", "H", 5, none, true, "v"⟩

def c3a : SecretsCollection := ⟨[("a.py", [c3sa])]⟩

def c3b : SecretsCollection := ⟨[("a.py", [c3sb])]⟩

/-- Like `c3sb` but agreeing with `c3sa` on every field except the
(zero-exempt) line number. -/
def c3sb2 : PotentialSecret := ⟨"Det", "a.py", "H", 5, none, false, "v"⟩

def c3b2 : SecretsCollection := ⟨[("a.py", [c3sb2])]⟩

/-- The per-pair agreement required, besides the identity key, for strict
equality: every remaining field matches, the line number being exempt when
either side's is zero. -/
def auditFieldsMatch (s t : PotentialSecret) : Bool :=
  decide (s.filename = t.filename) && decide (s.is_secret = t.is_secret) &&
  decide (s.is_verified = t.is_verified) &&
  (if s.line_number = 0 ∨ t.line_number = 0 then true
   else decide (s.line_number = t.line_number))

/-! ## trim (`SecretsCollection.trim`) -/

/-- `trim`'s line-number refresh: only update line numbers if the existing
finding was tracking them (non-zero). -/
def updateLine (existing scannedSec : PotentialSecret) : PotentialSecret :=
  if existing.line_number ≠ 0 then { existing with line_number := scannedSec.line_number }
  else existing

/-- The inner loop of `trim`'s first pass: for each finding of the
rescanned file, keep the matching existing finding (with refreshed line
number) if its identity key is present in `self`'s set. -/
def trimmedSecrets (selfSecs scannedSecs : List PotentialSecret) : List PotentialSecret :=
  scannedSecs.filterMap (fun s =>
    match findByKey selfSecs (idKey s) with
    | some existing => some (updateLine existing s)
    | none => none)

/-- First pass of `trim`: iterate over `scanned_results.files`; a `result`
entry is created only when at least one finding is actually added to it
(the `defaultdict` only materialises a key on access). -/
def trimStep1 (self scanned : SecretsCollection) : List (String × List PotentialSecret) :=
  scanned.data.filterMap (fun p =>
    if p.1 ∈ files self then
      let kept := trimmedSecrets (lookupFile self.data p.1) p.2
      if kept = [] then none else some (p.1, kept)
    else none)

/-- `SecretsCollection.trim(scanned_results, filelist)` with both arguments
supplied (`fileset` is the set of paths in `filelist`). -/
def trim (self scanned : SecretsCollection) (fileset : List String) : SecretsCollection :=
  let s1 := trimStep1 self scanned
  ⟨s1 ++ self.data.filter (fun p => decide (p.1 ∉ keys s1 ∧ p.1 ∉ fileset))⟩

/-- `SecretsCollection.trim()` with no arguments: `scanned_results` is an
empty collection and `filelist` is the subset of `self.files` that no
longer exists on disk; the filesystem check `os.path.exists` is an external
collaborator, embedded as the parameter `existsOnDisk`. -/
def trimDefault (self : SecretsCollection) (existsOnDisk : String → Bool) : SecretsCollection :=
  trim self ⟨[]⟩ ((files self).filter (fun f => !existsOnDisk f))

/-! ## subtraction (`SecretsCollection.__sub__`) -/

/-- `SecretsCollection.__sub__`: per-file set difference (by identity key)
for files of `other` also in `self`; files only in `self` are copied
unchanged; files only in `other` are skipped. -/
def sub (self other : SecretsCollection) : SecretsCollection :=
  ⟨other.data.filterMap (fun p =>
      if p.1 ∈ files self then
        some (p.1, (lookupFile self.data p.1).filter
          (fun s => decide (findByKey p.2 (idKey s) = none)))
      else none)
    ++ self.data.filter (fun p => decide (p.1 ∉ files other))⟩

/-! ## equality (`SecretsCollection.__eq__` / `exactly_equals`) -/

/-- Python set equality of the two key sets `self.files` / `other.files`. -/
def sameFiles (a b : SecretsCollection) : Bool :=
  (files a).all (fun f => decide (f ∈ files b)) &&
  (files b).all (fun f => decide (f ∈ files a))

def idKeys (l : List PotentialSecret) : List (String × String) :=
  l.map idKey

/-- Equality of `set(self_mapping.values())` and `set(other_mapping.values())`:
since findings hash and compare by identity key, this is equality of the
two sets of identity keys. -/
def sameKeys (a b : List PotentialSecret) : Bool :=
  (idKeys a).all (fun k => decide (k ∈ idKeys b)) &&
  (idKeys b).all (fun k => decide (k ∈ idKeys a))

/-- The strict per-pair comparison of `__eq__(strict=True)`: all fields of
the two findings except the raw secret value, and except the line number
when either side's line number is `0`.  (This models the comparison result
of a single call on fresh findings; the attribute-deleting behaviour of the
source's `vars(...)` usage is modelled separately below with `MutSecret`.) -/
def strictPair (a b : PotentialSecret) : Bool :=
  decide (a.type = b.type) && decide (a.filename = b.filename) &&
  decide (a.secret_hash = b.secret_hash) && decide (a.is_secret = b.is_secret) &&
  decide (a.is_verified = b.is_verified) &&
  (if a.line_number = 0 ∨ b.line_number = 0 then true
   else decide (a.line_number = b.line_number))

/-- `SecretsCollection.__eq__(other, strict)`: the key sets must agree; per
file the identity-key sets must agree; with `strict`, additionally every
identity-matched pair must agree on every field except the raw secret value
(line numbers exempted when either is `0`).  The `none` branch of the
lookup is unreachable when the identity-key sets agree (a `KeyError` in the
source). -/
def eqCollections (a b : SecretsCollection) (strict : Bool) : Bool :=
  sameFiles a b &&
  (files a).all (fun f =>
    sameKeys (lookupFile a.data f) (lookupFile b.data f) &&
      (!strict || (lookupFile a.data f).all (fun s =>
        match findByKey (lookupFile b.data f) (idKey s) with
        | some t => strictPair s t
        | none => false)))

/-! ## scan_diff (`SecretsCollection.scan_diff`) -/

/-- The possible outcomes of the external `scan.scan_diff` collaborator:
a finite sequence of findings, a `UnidiffParseError` on a malformed diff,
or an `ImportError` when the `unidiff` dependency is missing. -/
inductive ScanDiffOutcome where
  | secrets (l : List PotentialSecret)
  | parseFailure
  | importFailure
deriving DecidableEq, Repr

/-- The errors `SecretsCollection.scan_diff` can raise. -/
inductive ScanDiffError where
  | unidiffParseError
  | notImplementedError
deriving DecidableEq, Repr

/-- `self[secret.filename].add(secret)`: adding to a Python set keyed by
identity is a no-op when the identity key is already present. -/
def addSecret (c : SecretsCollection) (s : PotentialSecret) : SecretsCollection :=
  if s.filename ∈ files c then
    ⟨c.data.map (fun p =>
      if p.1 = s.filename then
        (p.1, if (findByKey p.2 (idKey s)).isSome then p.2 else p.2 ++ [s])
      else p)⟩
  else ⟨c.data ++ [(s.filename, [s])]⟩

/-- `SecretsCollection.scan_diff(diff)`: absorb the collaborator's findings;
a parse failure propagates unchanged; an `ImportError` from the missing
collaborator is turned into a `NotImplementedError`. -/
def scan_diff (self : SecretsCollection) (outcome : ScanDiffOutcome) :
    Except ScanDiffError SecretsCollection :=
  match outcome with
  | .secrets l => .ok (l.foldl addSecret self)
  | .parseFailure => .error .unidiffParseError
  | .importFailure => .error .notImplementedError

/-! ## iteration (`SecretsCollection.__iter__`) -/

/-- The sort key used inside a file: `(line_number, secret_hash, type)`,
compared lexicographically. -/
def displayKey (s : PotentialSecret) : Lex (Nat × Lex (String × String)) :=
  toLex (s.line_number, toLex (s.secret_hash, s.type))

def secLE (a b : PotentialSecret) : Prop :=
  displayKey a ≤ displayKey b

def secLT (a b : PotentialSecret) : Prop :=
  displayKey a < displayKey b

instance : DecidableRel secLE := fun a b =>
  inferInstanceAs (Decidable (displayKey a ≤ displayKey b))

instance : DecidableRel secLT := fun a b =>
  inferInstanceAs (Decidable (displayKey a < displayKey b))

instance : IsTotal PotentialSecret secLE :=
  ⟨fun a b => le_total (displayKey a) (displayKey b)⟩

instance : IsTrans PotentialSecret secLE :=
  ⟨fun _ _ _ h₁ h₂ => le_trans h₁ h₂⟩

/-- `SecretsCollection.__iter__`: files in sorted path order, findings
within a file in ascending display-key order. -/
def iterList (c : SecretsCollection) : List (String × PotentialSecret) :=
  (List.insertionSort (· ≤ ·) (files c)).flatMap
    (fun f => (List.insertionSort secLE (lookupFile c.data f)).map (fun s => (f, s)))

/-- Strict ordering on the yielded (file, finding) pairs: earlier file
path, or same file and strictly smaller display key. -/
def pairLT (a b : String × PotentialSecret) : Prop :=
  a.1 < b.1 ∨ (a.1 = b.1 ∧ secLT a.2 b.2)

/-! ## Attribute-level model of `__eq__(strict=True)`

The source's strict comparison runs `valuesA = vars(secretA);
valuesA.pop('secret_value')` (and conditionally pops `line_number`).
`vars` returns the live attribute dictionary of the object, so the pops
delete attributes from the compared findings themselves.  `MutSecret`
models a finding's attribute dictionary: a field of value `none` is an
attribute that has been deleted; popping or reading an absent attribute is
a `KeyError`, modelled as `Option.none` at the call level. -/

structure MutSecret where
  type : String
  filename : String
  secret_hash : String
  line_number : Option Nat
  is_secret : Option (Option Bool)
  is_verified : Option Bool
  secret_value : Option String
deriving DecidableEq, Repr

def midKey (s : MutSecret) : String × String :=
  (s.secret_hash, s.type)

/-- One strict pair comparison, with the source's `vars(...).pop` mutation:
pop `secret_value` from both attribute dictionaries, then (if either line
number is `0`) pop `line_number` from both, then compare the remaining
dictionaries.  Any pop or read of an absent attribute is a `KeyError`
(`none`). -/
def strictCompareMut (a b : MutSecret) : Option (Bool × MutSecret × MutSecret) :=
  match a.secret_value, b.secret_value with
  | some _, some _ =>
    let a1 : MutSecret := { a with secret_value := none }
    let b1 : MutSecret := { b with secret_value := none }
    match a1.line_number, b1.line_number with
    | some la, some lb =>
      if la = 0 ∨ lb = 0 then
        let a2 : MutSecret := { a1 with line_number := none }
        let b2 : MutSecret := { b1 with line_number := none }
        some (decide (a2 = b2), a2, b2)
      else
        some (decide (a1 = b1), a1, b1)
    | _, _ => none
  | _, _ => none

/-- Replace the finding with the given identity key by `b`. -/
def replaceByKey (l : List MutSecret) (k : String × String) (b : MutSecret) :
    List MutSecret :=
  l.map (fun t => if midKey t = k then b else t)

/-- The strict inner loop over one file: for each finding of `a`'s set, look
up the identity-matched finding of `b`'s set, compare (mutating both), and
stop at the first mismatch.  Returns the result together with both sets as
mutated so far. -/
def strictLoopMut : List MutSecret → List MutSecret →
    Option (Bool × List MutSecret × List MutSecret)
  | [], bs => some (true, [], bs)
  | a :: rest, bs =>
    match bs.find? (fun t => decide (midKey t = midKey a)) with
    | none => none
    | some b =>
      match strictCompareMut a b with
      | none => none
      | some (ok, a1, b1) =>
        let bs1 := replaceByKey bs (midKey a) b1
        if ok then
          match strictLoopMut rest bs1 with
          | none => none
          | some (res, rest1, bs2) => some (res, a1 :: rest1, bs2)
        else
          some (false, a1 :: rest, bs1)

def MutData := List (String × List MutSecret)

def lookupMut : List (String × List MutSecret) → String → List MutSecret
  | [], _ => []
  | p :: rest, f => if p.1 = f then p.2 else lookupMut rest f

def setFileMut (c : List (String × List MutSecret)) (f : String)
    (ss : List MutSecret) : List (String × List MutSecret) :=
  c.map (fun p => if p.1 = f then (p.1, ss) else p)

/-- A fresh finding (every attribute present) for the mutation model. -/
def c10a : MutSecret :=
  ⟨"Det", "a.py", "H", some 3, some none, some false, some "v1"⟩

def c10b : MutSecret :=
  ⟨"Det", "a.py", "H", some 3, some none, some false, some "v2"⟩

/-- `c10a` after one strict comparison: its `secret_value` attribute has
been deleted by `vars(...).pop`. -/
def c10a1 : MutSecret :=
  ⟨"Det", "a.py", "H", some 3, some none, some false, none⟩

def c10b1 : MutSecret :=
  ⟨"Det", "a.py", "H", some 3, some none, some false, none⟩

def sameKeysMut (a b : List MutSecret) : Bool :=
  (a.map midKey).all (fun k => decide (k ∈ b.map midKey)) &&
  (b.map midKey).all (fun k => decide (k ∈ a.map midKey))

/-- The per-file loop of `__eq__(strict=True)`, threading the mutated
attribute dictionaries through; the loose identity check uses only the
(always present) `secret_hash` and `type` attributes. -/
def eqMutFiles : List String → List (String × List MutSecret) →
    List (String × List MutSecret) →
    Option (Bool × List (String × List MutSecret) × List (String × List MutSecret))
  | [], a, b => some (true, a, b)
  | f :: fs, a, b =>
    if sameKeysMut (lookupMut a f) (lookupMut b f) then
      match strictLoopMut (lookupMut a f) (lookupMut b f) with
      | none => none
      | some (ok, as1, bs1) =>
        let a1 := setFileMut a f as1
        let b1 := setFileMut b f bs1
        if ok then eqMutFiles fs a1 b1 else some (false, a1, b1)
    else
      some (false, a, b)

/-- `SecretsCollection.exactly_equals` at the attribute level: `none` means
the call raised (`KeyError`); otherwise the boolean result together with
both collections' findings as mutated by the comparison. -/
def exactlyEqualsMut (a b : List (String × List MutSecret)) :
    Option (Bool × List (String × List MutSecret) × List (String × List MutSecret)) :=
  if ((a.map Prod.fst).all (fun f => decide (f ∈ b.map Prod.fst)) &&
      (b.map Prod.fst).all (fun f => decide (f ∈ a.map Prod.fst))) then
    eqMutFiles (a.map Prod.fst) a b
  else
    some (false, a, b)

/-! ## Helper lemmas on the association-list embedding -/

theorem lookupFile_eq_nil {l : List (String × List PotentialSecret)} {f : String}
    (h : f ∉ keys l) : lookupFile l f = [] := by
  induction l with
  | nil => rfl
  | cons p rest ih =>
    simp only [keys, List.map_cons, List.mem_cons, not_or] at h
    rw [lookupFile, if_neg (fun he => h.1 he.symm)]
    exact ih h.2

theorem lookupFile_mem {l : List (String × List PotentialSecret)} {f : String}
    (h : f ∈ keys l) : (f, lookupFile l f) ∈ l := by
  induction l with
  | nil => simp [keys] at h
  | cons p rest ih =>
    by_cases he : p.1 = f
    · subst he
      rw [lookupFile, if_pos rfl]
      exact List.mem_cons_self _ _
    · rw [lookupFile, if_neg he]
      simp only [keys, List.map_cons, List.mem_cons] at h
      rcases h with h | h
      · exact absurd h.symm he
      · exact List.mem_cons_of_mem _ (ih h)

theorem lookupFile_append (l₁ l₂ : List (String × List PotentialSecret)) (f : String) :
    lookupFile (l₁ ++ l₂) f =
      if f ∈ keys l₁ then lookupFile l₁ f else lookupFile l₂ f := by
  induction l₁ with
  | nil => simp [keys, lookupFile]
  | cons p rest ih =>
    by_cases he : p.1 = f
    · subst he
      simp [lookupFile, keys]
    · have hkeys : f ∈ keys (p :: rest) ↔ f ∈ keys rest := by
        simp only [keys, List.map_cons, List.mem_cons]
        constructor
        · intro h
          exact h.resolve_left (fun h1 => he h1.symm)
        · exact Or.inr
      by_cases hm : f ∈ keys rest
      · rw [if_pos (hkeys.mpr hm)]
        show lookupFile (p :: (rest ++ l₂)) f = lookupFile (p :: rest) f
        simp only [lookupFile]
        rw [if_neg he, if_neg he, ih, if_pos hm]
      · rw [if_neg (fun h => hm (hkeys.mp h))]
        show lookupFile (p :: (rest ++ l₂)) f = lookupFile l₂ f
        simp only [lookupFile]
        rw [if_neg he, ih, if_neg hm]

theorem mem_keys_append {l₁ l₂ : List (String × List PotentialSecret)} {f : String} :
    f ∈ keys (l₁ ++ l₂) ↔ f ∈ keys l₁ ∨ f ∈ keys l₂ := by
  simp [keys]

theorem findByKey_eq_none {l : List PotentialSecret} {k : String × String} :
    findByKey l k = none ↔ ∀ s ∈ l, idKey s ≠ k := by
  induction l with
  | nil => simp [findByKey]
  | cons s rest ih =>
    by_cases he : idKey s = k
    · simp [findByKey, he]
    · simp [findByKey, he, ih]

theorem findByKey_some {l : List PotentialSecret} {k : String × String}
    {s : PotentialSecret} (h : findByKey l k = some s) : s ∈ l ∧ idKey s = k := by
  induction l with
  | nil => simp [findByKey] at h
  | cons t rest ih =>
    by_cases he : idKey t = k
    · rw [findByKey, if_pos he] at h
      cases h
      exact ⟨List.mem_cons_self _ _, he⟩
    · rw [findByKey, if_neg he] at h
      exact ⟨List.mem_cons_of_mem _ (ih h).1, (ih h).2⟩

theorem findByKey_of_mem {l : List PotentialSecret} {s : PotentialSecret}
    (hn : (l.map idKey).Nodup) (hs : s ∈ l) : findByKey l (idKey s) = some s := by
  induction l with
  | nil => simp at hs
  | cons t rest ih =>
    simp only [List.map_cons, List.nodup_cons] at hn
    rcases List.mem_cons.mp hs with h | h
    · subst h
      simp [findByKey]
    · have hne : idKey t ≠ idKey s := by
        intro he
        exact hn.1 (he ▸ List.mem_map_of_mem idKey h)
      rw [findByKey, if_neg hne]
      exact ih hn.2 h

theorem findByKey_of_key_mem {l : List PotentialSecret} {k : String × String}
    (h : k ∈ l.map idKey) : ∃ s, findByKey l k = some s ∧ idKey s = k := by
  induction l with
  | nil => simp at h
  | cons t rest ih =>
    by_cases he : idKey t = k
    · exact ⟨t, by simp [findByKey, he], he⟩
    · rw [List.map_cons, List.mem_cons] at h
      rcases h with h | h
      · exact absurd h.symm he
      · obtain ⟨s, hs, hk⟩ := ih h
        exact ⟨s, by simp [findByKey, he, hs], hk⟩

theorem mem_keys_iff {l : List (String × List PotentialSecret)} {f : String} :
    f ∈ keys l ↔ ∃ p, p ∈ l ∧ p.1 = f := by
  simp [keys, List.mem_map]

theorem lookupFile_filter_pred {l : List (String × List PotentialSecret)}
    {pred : String × List PotentialSecret → Bool} {f : String}
    (h : ∀ p : String × List PotentialSecret, p.1 = f → pred p = true) :
    lookupFile (l.filter pred) f = lookupFile l f := by
  induction l with
  | nil => rfl
  | cons p rest ih =>
    by_cases he : p.1 = f
    · rw [List.filter_cons, if_pos (h p he)]
      rw [lookupFile, if_pos he, lookupFile, if_pos he]
    · cases hq : pred p with
      | true =>
        rw [List.filter_cons, if_pos hq, lookupFile, if_neg he, ih, lookupFile, if_neg he]
      | false =>
        rw [List.filter_cons, if_neg (by simp [hq]), ih, lookupFile, if_neg he]

theorem not_mem_keys_filter_pred {l : List (String × List PotentialSecret)}
    {pred : String × List PotentialSecret → Bool} {f : String}
    (h : ∀ p : String × List PotentialSecret, p.1 = f → pred p = false) :
    f ∉ keys (l.filter pred) := by
  intro hm
  rw [mem_keys_iff] at hm
  obtain ⟨p, hp, hpf⟩ := hm
  have hp2 := List.of_mem_filter hp
  rw [h p hpf] at hp2
  exact Bool.noConfusion hp2

/-! ## Lemmas about `merge` -/

theorem mergeSecret_idKey (c o : PotentialSecret) : idKey (mergeSecret c o) = idKey c := by
  unfold mergeSecret idKey
  by_cases h1 : c.is_secret = none <;> by_cases h2 : c.is_verified = false <;>
    simp [h1, h2]

theorem mergeSecret_frame (c o : PotentialSecret) :
    frameFields (mergeSecret c o) = frameFields c := by
  unfold mergeSecret frameFields
  by_cases h1 : c.is_secret = none <;> by_cases h2 : c.is_verified = false <;>
    simp [h1, h2]

theorem mergeSecret_is_verified (c o : PotentialSecret) :
    (mergeSecret c o).is_verified = (c.is_verified || o.is_verified) := by
  unfold mergeSecret
  by_cases h1 : c.is_secret = none <;> cases hv : c.is_verified <;> simp [h1, hv]

theorem mergeSecret_is_secret (c o : PotentialSecret) :
    (mergeSecret c o).is_secret = if c.is_secret = none then o.is_secret else c.is_secret := by
  unfold mergeSecret
  by_cases h1 : c.is_secret = none <;> by_cases h2 : c.is_verified = false <;>
    simp [h1, h2]

theorem mergeFile_eq_map (olds : List PotentialSecret) :
    ∀ cur : List PotentialSecret, mergeFile cur olds = cur.map (applyOlds olds) := by
  induction olds with
  | nil =>
    intro cur
    have h0 : applyOlds [] = @id PotentialSecret := rfl
    rw [h0, List.map_id]
    rfl
  | cons o os ih =>
    intro cur
    have h1 : mergeFile cur (o :: os) =
        mergeFile (cur.map (fun c => if idKey c = idKey o then mergeSecret c o else c)) os :=
      rfl
    rw [h1, ih, List.map_map]
    rfl

theorem applyOlds_not_found {olds : List PotentialSecret} {c : PotentialSecret}
    (h : findByKey olds (idKey c) = none) : applyOlds olds c = c := by
  induction olds with
  | nil => rfl
  | cons o os ih =>
    by_cases he : idKey o = idKey c
    · rw [findByKey, if_pos he] at h
      exact absurd h (by simp)
    · rw [findByKey, if_neg he] at h
      show applyOlds os (if idKey c = idKey o then mergeSecret c o else c) = c
      rw [if_neg (fun h1 => he h1.symm)]
      exact ih h

theorem applyOlds_found {olds : List PotentialSecret} {c o : PotentialSecret}
    (hn : (olds.map idKey).Nodup) (h : findByKey olds (idKey c) = some o) :
    applyOlds olds c = mergeSecret c o := by
  induction olds with
  | nil => simp [findByKey] at h
  | cons t os ih =>
    rw [List.map_cons, List.nodup_cons] at hn
    by_cases he : idKey t = idKey c
    · rw [findByKey, if_pos he] at h
      injection h with h2
      show applyOlds os (if idKey c = idKey t then mergeSecret c t else c) = mergeSecret c o
      rw [if_pos he.symm, ← h2]
      apply applyOlds_not_found
      rw [findByKey_eq_none]
      intro s hs hk
      rw [mergeSecret_idKey, ← he] at hk
      exact hn.1 (hk ▸ List.mem_map_of_mem idKey hs)
    · rw [findByKey, if_neg he] at h
      show applyOlds os (if idKey c = idKey t then mergeSecret c t else c) = mergeSecret c o
      rw [if_neg (fun h1 => he h1.symm)]
      exact ih hn.2 h

theorem applyOlds_frame (olds : List PotentialSecret) (c : PotentialSecret) :
    frameFields (applyOlds olds c) = frameFields c := by
  induction olds generalizing c with
  | nil => rfl
  | cons o os ih =>
    show frameFields (applyOlds os (if idKey c = idKey o then mergeSecret c o else c)) = _
    by_cases he : idKey c = idKey o
    · rw [if_pos he, ih, mergeSecret_frame]
    · rw [if_neg he, ih]

theorem applyOlds_idKey (olds : List PotentialSecret) (c : PotentialSecret) :
    idKey (applyOlds olds c) = idKey c := by
  induction olds generalizing c with
  | nil => rfl
  | cons o os ih =>
    show idKey (applyOlds os (if idKey c = idKey o then mergeSecret c o else c)) = _
    by_cases he : idKey c = idKey o
    · rw [if_pos he, ih, mergeSecret_idKey]
    · rw [if_neg he, ih]

theorem merge_lookup_list (old : SecretsCollection)
    (l : List (String × List PotentialSecret)) (f : String) :
    lookupFile
      (l.map (fun p =>
        if p.1 ∈ files old then (p.1, mergeFile p.2 (lookupFile old.data p.1)) else p)) f =
    if f ∈ files old then mergeFile (lookupFile l f) (lookupFile old.data f)
    else lookupFile l f := by
  induction l with
  | nil =>
    by_cases hf : f ∈ files old
    · simp [lookupFile, hf, mergeFile_eq_map]
    · simp [lookupFile, hf]
  | cons p rest ih =>
    by_cases he : p.1 = f
    · subst he
      by_cases hb : p.1 ∈ files old
      · simp only [List.map_cons, if_pos hb]
        rw [lookupFile, if_pos rfl, lookupFile, if_pos rfl]
      · simp only [List.map_cons, if_neg hb]
        rw [lookupFile, if_pos rfl, lookupFile, if_pos rfl]
    · simp only [List.map_cons]
      have hkey : (if p.1 ∈ files old
          then (p.1, mergeFile p.2 (lookupFile old.data p.1)) else p).1 = p.1 := by
        by_cases hb : p.1 ∈ files old <;> simp [hb]
      rw [lookupFile]
      rw [if_neg (by rw [hkey]; exact he)]
      rw [ih, lookupFile, if_neg he]

theorem merge_lookup (self old : SecretsCollection) (f : String) :
    lookupFile (merge self old).data f =
      if f ∈ files old then mergeFile (lookupFile self.data f) (lookupFile old.data f)
      else lookupFile self.data f :=
  merge_lookup_list old self.data f

theorem merge_files (self old : SecretsCollection) :
    files (merge self old) = files self := by
  show keys (self.data.map _) = keys self.data
  unfold keys
  rw [List.map_map]
  apply List.map_congr_left
  intro p _
  by_cases hb : p.1 ∈ files old <;> simp [hb]

/-- **C2.**  After `merge(self, old_results)`, every current finding that
has an identity-matched finding in `old_results` for the same file carries
merged audit state: it is verified iff it was verified in either operand
(verification is never cleared), its `is_secret` is unknown only if it was
unknown in both, and when the current `is_secret` was unknown it takes the
old finding's value. -/
theorem merge_audit_monotonic (self old : SecretsCollection) (hold : WF old)
    (f : String) (c : PotentialSecret) (hc : c ∈ lookupFile self.data f)
    (o : PotentialSecret) (ho : findByKey (lookupFile old.data f) (idKey c) = some o) :
    mergeSecret c o ∈ lookupFile (merge self old).data f ∧
    idKey (mergeSecret c o) = idKey c ∧
    ((mergeSecret c o).is_verified = true ↔
      (c.is_verified = true ∨ o.is_verified = true)) ∧
    ((mergeSecret c o).is_secret = none ↔
      (c.is_secret = none ∧ o.is_secret = none)) ∧
    (c.is_secret = none → (mergeSecret c o).is_secret = o.is_secret) := by
  have hfo : f ∈ files old := by
    by_contra hno
    rw [lookupFile_eq_nil hno] at ho
    simp [findByKey] at ho
  have hnodup : ((lookupFile old.data f).map idKey).Nodup :=
    hold.2 _ (lookupFile_mem hfo)
  refine ⟨?_, mergeSecret_idKey c o, ?_, ?_, ?_⟩
  · rw [merge_lookup, if_pos hfo, mergeFile_eq_map]
    have hmem := List.mem_map_of_mem (applyOlds (lookupFile old.data f)) hc
    rwa [applyOlds_found hnodup ho] at hmem
  · rw [mergeSecret_is_verified]
    simp [Bool.or_eq_true]
  · rw [mergeSecret_is_secret]
    by_cases h1 : c.is_secret = none <;> simp [h1]
  · intro h1
    rw [mergeSecret_is_secret, if_pos h1]

theorem merge_audit_monotonic_witness :
    mergeSecret sampleCur sampleOld ∈
      lookupFile (merge sampleSelf sampleOldColl).data "a.py" ∧
    idKey (mergeSecret sampleCur sampleOld) = idKey sampleCur ∧
    ((mergeSecret sampleCur sampleOld).is_verified = true ↔
      (sampleCur.is_verified = true ∨ sampleOld.is_verified = true)) ∧
    ((mergeSecret sampleCur sampleOld).is_secret = none ↔
      (sampleCur.is_secret = none ∧ sampleOld.is_secret = none)) ∧
    (sampleCur.is_secret = none →
      (mergeSecret sampleCur sampleOld).is_secret = sampleOld.is_secret) :=
  merge_audit_monotonic sampleSelf sampleOldColl (by decide) "a.py" sampleCur
    (by decide) sampleOld (by decide)

/-- **C5.**  `merge` never adds a finding to `self`: the key set, the
per-file identity-key lists and the per-file non-audit fields are all
unchanged — only the audit fields (`is_secret`, `is_verified`) of findings
already present can change, and no new collection is produced beyond the
updated `self`. -/
theorem merge_non_resurrection (self old : SecretsCollection) :
    files (merge self old) = files self ∧
    (∀ f, (lookupFile (merge self old).data f).map idKey =
      (lookupFile self.data f).map idKey) ∧
    (∀ f, (lookupFile (merge self old).data f).map frameFields =
      (lookupFile self.data f).map frameFields) := by
  refine ⟨merge_files self old, fun f => ?_, fun f => ?_⟩
  · rw [merge_lookup]
    by_cases hf : f ∈ files old
    · rw [if_pos hf, mergeFile_eq_map, List.map_map]
      apply List.map_congr_left
      intro c _
      exact applyOlds_idKey _ c
    · rw [if_neg hf]
  · rw [merge_lookup]
    by_cases hf : f ∈ files old
    · rw [if_pos hf, mergeFile_eq_map, List.map_map]
      apply List.map_congr_left
      intro c _
      exact applyOlds_frame _ c
    · rw [if_neg hf]

/-! ## Lemmas about `trim` -/

theorem trimStep1_spec (self : SecretsCollection) (l : List (String × List PotentialSecret))
    (hn : (keys l).Nodup) (f : String) :
    (f ∈ keys (trimStep1 self ⟨l⟩) ↔
      (f ∈ keys l ∧ f ∈ files self ∧
        trimmedSecrets (lookupFile self.data f) (lookupFile l f) ≠ [])) ∧
    (f ∈ keys (trimStep1 self ⟨l⟩) →
      lookupFile (trimStep1 self ⟨l⟩) f =
        trimmedSecrets (lookupFile self.data f) (lookupFile l f)) := by
  induction l with
  | nil =>
    refine ⟨?_, ?_⟩
    · simp [trimStep1, keys]
    · intro h
      simp [trimStep1, keys] at h
  | cons p rest ih =>
    have hnc : p.1 ∉ keys rest ∧ (keys rest).Nodup := by
      rw [show keys (p :: rest) = p.1 :: keys rest from rfl, List.nodup_cons] at hn
      exact hn
    have ihr := ih hnc.2
    by_cases hs : p.1 ∈ files self
    · by_cases hk : trimmedSecrets (lookupFile self.data p.1) p.2 = []
      · have hstep : trimStep1 self ⟨p :: rest⟩ = trimStep1 self ⟨rest⟩ := by
          show List.filterMap _ (p :: rest) = _
          rw [List.filterMap_cons, if_pos hs, if_pos hk]
          rfl
        rw [hstep]
        by_cases hf : p.1 = f
        · subst hf
          have hnot : p.1 ∉ keys (trimStep1 self ⟨rest⟩) := fun hm => hnc.1 (ihr.1.mp hm).1
          refine ⟨⟨fun hm => absurd hm hnot, ?_⟩, fun hm => absurd hm hnot⟩
          rintro ⟨-, -, hne⟩
          rw [lookupFile, if_pos rfl] at hne
          exact (hne hk).elim
        · have hlk : lookupFile (p :: rest) f = lookupFile rest f := by
            rw [lookupFile, if_neg hf]
          have hkc : (f ∈ keys (p :: rest)) ↔ f ∈ keys rest := by
            rw [show keys (p :: rest) = p.1 :: keys rest from rfl, List.mem_cons]
            exact ⟨fun h => h.resolve_left fun h1 => hf h1.symm, Or.inr⟩
          rw [hlk, hkc]
          exact ihr
      · have hstep : trimStep1 self ⟨p :: rest⟩ =
            (p.1, trimmedSecrets (lookupFile self.data p.1) p.2) :: trimStep1 self ⟨rest⟩ := by
          show List.filterMap _ (p :: rest) = _
          rw [List.filterMap_cons, if_pos hs, if_neg hk]
          rfl
        rw [hstep]
        by_cases hf : p.1 = f
        · subst hf
          have hk2 : p.1 ∈ keys ((p.1, trimmedSecrets (lookupFile self.data p.1) p.2) ::
              trimStep1 self ⟨rest⟩) :=
            List.mem_cons_self _ _
          have hlk : lookupFile (p :: rest) p.1 = p.2 := by
            rw [lookupFile, if_pos rfl]
          refine ⟨⟨fun _ => ⟨List.mem_cons_self _ _, hs, ?_⟩, fun _ => hk2⟩, fun _ => ?_⟩
          · rw [hlk]
            exact hk
          · rw [hlk, lookupFile, if_pos rfl]
        · have hlk : lookupFile (p :: rest) f = lookupFile rest f := by
            rw [lookupFile, if_neg hf]
          have hkc : (f ∈ keys (p :: rest)) ↔ f ∈ keys rest := by
            rw [show keys (p :: rest) = p.1 :: keys rest from rfl, List.mem_cons]
            exact ⟨fun h => h.resolve_left fun h1 => hf h1.symm, Or.inr⟩
          have hkc2 : (f ∈ keys ((p.1, trimmedSecrets (lookupFile self.data p.1) p.2) ::
              trimStep1 self ⟨rest⟩)) ↔ f ∈ keys (trimStep1 self ⟨rest⟩) := by
            rw [show keys ((p.1, trimmedSecrets (lookupFile self.data p.1) p.2) ::
              trimStep1 self ⟨rest⟩) = p.1 :: keys (trimStep1 self ⟨rest⟩) from rfl,
              List.mem_cons]
            exact ⟨fun h => h.resolve_left fun h1 => hf h1.symm, Or.inr⟩
          constructor
          · rw [hkc2, hkc, hlk]
            exact ihr.1
          · intro hm
            rw [lookupFile, if_neg hf, hlk]
            exact ihr.2 (hkc2.mp hm)
    · have hstep : trimStep1 self ⟨p :: rest⟩ = trimStep1 self ⟨rest⟩ := by
        show List.filterMap _ (p :: rest) = _
        rw [List.filterMap_cons, if_neg hs]
        rfl
      rw [hstep]
      by_cases hf : p.1 = f
      · subst hf
        have hnot : p.1 ∉ keys (trimStep1 self ⟨rest⟩) := fun hm => hnc.1 (ihr.1.mp hm).1
        refine ⟨⟨fun hm => absurd hm hnot, ?_⟩, fun hm => absurd hm hnot⟩
        rintro ⟨-, hs1, -⟩
        exact (hs hs1).elim
      · have hlk : lookupFile (p :: rest) f = lookupFile rest f := by
          rw [lookupFile, if_neg hf]
        have hkc : (f ∈ keys (p :: rest)) ↔ f ∈ keys rest := by
          rw [show keys (p :: rest) = p.1 :: keys rest from rfl, List.mem_cons]
          exact ⟨fun h => h.resolve_left fun h1 => hf h1.symm, Or.inr⟩
        rw [hlk, hkc]
        exact ihr

theorem trim_lookup (self scanned : SecretsCollection) (fileset : List String) (f : String) :
    lookupFile (trim self scanned fileset).data f =
      if f ∈ keys (trimStep1 self scanned) then lookupFile (trimStep1 self scanned) f
      else if f ∈ fileset then [] else lookupFile self.data f := by
  show lookupFile (trimStep1 self scanned ++ _) f = _
  rw [lookupFile_append]
  by_cases h1 : f ∈ keys (trimStep1 self scanned)
  · rw [if_pos h1, if_pos h1]
  · rw [if_neg h1, if_neg h1]
    by_cases h2 : f ∈ fileset
    · rw [if_pos h2]
      apply lookupFile_eq_nil
      apply not_mem_keys_filter_pred
      intro p hp
      rw [hp]
      simp [h2]
    · rw [if_neg h2]
      apply lookupFile_filter_pred
      intro p hp
      rw [hp]
      simp [h1, h2]

theorem trim_files (self scanned : SecretsCollection) (fileset : List String) (f : String) :
    f ∈ files (trim self scanned fileset) ↔
      (f ∈ keys (trimStep1 self scanned) ∨
        (f ∈ files self ∧ f ∉ keys (trimStep1 self scanned) ∧ f ∉ fileset)) := by
  show f ∈ keys (trimStep1 self scanned ++ _) ↔ _
  rw [mem_keys_append]
  constructor
  · rintro (h | h)
    · exact Or.inl h
    · rw [mem_keys_iff] at h
      obtain ⟨p, hp, hpf⟩ := h
      rw [List.mem_filter] at hp
      have hdec := hp.2
      rw [hpf, decide_eq_true_eq] at hdec
      refine Or.inr ⟨?_, hdec.1, hdec.2⟩
      exact hpf ▸ List.mem_map_of_mem Prod.fst hp.1
  · rintro (h | ⟨hmem, h1, h2⟩)
    · exact Or.inl h
    · right
      have hmem2 : f ∈ keys self.data := hmem
      rw [mem_keys_iff] at hmem2
      obtain ⟨p, hp, hpf⟩ := hmem2
      rw [mem_keys_iff]
      refine ⟨p, List.mem_filter.mpr ⟨hp, ?_⟩, hpf⟩
      rw [hpf]
      exact decide_eq_true ⟨h1, h2⟩

theorem mem_trimmedSecrets_iff {selfSecs scannedSecs : List PotentialSecret}
    (hn : (selfSecs.map idKey).Nodup) (x : PotentialSecret) :
    x ∈ trimmedSecrets selfSecs scannedSecs ↔
      ∃ o ∈ selfSecs, ∃ r ∈ scannedSecs, idKey o = idKey r ∧ x = updateLine o r := by
  unfold trimmedSecrets
  rw [List.mem_filterMap]
  constructor
  · rintro ⟨r, hr, hmatch⟩
    cases hfk : findByKey selfSecs (idKey r) with
    | none =>
      rw [hfk] at hmatch
      simp at hmatch
    | some o =>
      rw [hfk] at hmatch
      have hfs := findByKey_some hfk
      injection hmatch with h2
      exact ⟨o, hfs.1, r, hr, hfs.2, h2.symm⟩
  · rintro ⟨o, ho, r, hr, hkey, hx⟩
    refine ⟨r, hr, ?_⟩
    rw [← hkey, findByKey_of_mem hn ho, hx]

/-- **C1 (counterexample).**  The claim states that after
`trim(rescanned, filelist)`, for a file present in both collections, `self`
retains exactly the findings whose identity key reappears in `rescanned` —
in particular nothing when no identity key matches.  On `c1self` and
`c1scan` (same file, disjoint identity keys, empty filelist) the code keeps
the whole original set instead. -/
theorem trim_unmatched_counterexample :
    ("a.py" ∈ files c1self ∧ "a.py" ∈ files c1scan) ∧
    (∀ s ∈ lookupFile c1self.data "a.py", ∀ t ∈ lookupFile c1scan.data "a.py",
      idKey s ≠ idKey t) ∧
    lookupFile (trim c1self c1scan []).data "a.py" = [c1orig] := by
  decide

/-- **C1 (amended).**  For a file `f` present in both `self` and
`rescanned`: when at least one identity key of `self`'s set for `f` appears
in `rescanned`'s set for `f`, the trimmed set for `f` consists of exactly
the original findings whose identity key appears in `rescanned`'s set (with
line numbers refreshed via `updateLine`); when no identity key matches, the
entry for `f` is removed entirely if `f` is in the filelist, and `self`'s
set for `f` is kept unchanged otherwise. -/
theorem trim_intersection (self scanned : SecretsCollection) (fileset : List String)
    (hw1 : WF self) (hw2 : WF scanned) (f : String)
    (hf1 : f ∈ files self) (hf2 : f ∈ files scanned) :
    (trimmedSecrets (lookupFile self.data f) (lookupFile scanned.data f) ≠ [] →
      ∀ x, x ∈ lookupFile (trim self scanned fileset).data f ↔
        (∃ o ∈ lookupFile self.data f, ∃ r ∈ lookupFile scanned.data f,
          idKey o = idKey r ∧ x = updateLine o r)) ∧
    (trimmedSecrets (lookupFile self.data f) (lookupFile scanned.data f) = [] →
      ((∀ o ∈ lookupFile self.data f, ∀ r ∈ lookupFile scanned.data f,
        idKey o ≠ idKey r) ∧
       (f ∈ fileset → f ∉ files (trim self scanned fileset)) ∧
       (f ∉ fileset →
        lookupFile (trim self scanned fileset).data f = lookupFile self.data f))) := by
  have hsn : ((lookupFile self.data f).map idKey).Nodup :=
    hw1.2 _ (lookupFile_mem hf1)
  have spec := trimStep1_spec self scanned.data hw2.1 f
  constructor
  · intro hne x
    have hk1 : f ∈ keys (trimStep1 self scanned) := spec.1.mpr ⟨hf2, hf1, hne⟩
    have hlo : lookupFile (trim self scanned fileset).data f =
        trimmedSecrets (lookupFile self.data f) (lookupFile scanned.data f) := by
      rw [trim_lookup, if_pos hk1]
      exact spec.2 hk1
    rw [hlo]
    exact mem_trimmedSecrets_iff hsn x
  · intro hempty
    have hnk : f ∉ keys (trimStep1 self scanned) :=
      fun hm => (spec.1.mp hm).2.2 hempty
    refine ⟨?_, ?_, ?_⟩
    · intro o ho r hr hkey
      have hmem : updateLine o r ∈
          trimmedSecrets (lookupFile self.data f) (lookupFile scanned.data f) :=
        (mem_trimmedSecrets_iff hsn _).mpr ⟨o, ho, r, hr, hkey, rfl⟩
      rw [hempty] at hmem
      simp at hmem
    · intro hfs
      rw [trim_files]
      rintro (h | ⟨-, -, h2⟩)
      · exact hnk h
      · exact h2 hfs
    · intro hnfs
      rw [trim_lookup, if_neg hnk, if_neg hnfs]

theorem trim_intersection_witness :
    (trimmedSecrets (lookupFile sampleSelf.data "a.py")
        (lookupFile c7scan.data "a.py") ≠ [] →
      ∀ x, x ∈ lookupFile (trim sampleSelf c7scan []).data "a.py" ↔
        (∃ o ∈ lookupFile sampleSelf.data "a.py", ∃ r ∈ lookupFile c7scan.data "a.py",
          idKey o = idKey r ∧ x = updateLine o r)) ∧
    (trimmedSecrets (lookupFile sampleSelf.data "a.py")
        (lookupFile c7scan.data "a.py") = [] →
      ((∀ o ∈ lookupFile sampleSelf.data "a.py", ∀ r ∈ lookupFile c7scan.data "a.py",
        idKey o ≠ idKey r) ∧
       ("a.py" ∈ ([] : List String) → "a.py" ∉ files (trim sampleSelf c7scan [])) ∧
       ("a.py" ∉ ([] : List String) →
        lookupFile (trim sampleSelf c7scan []).data "a.py" =
          lookupFile sampleSelf.data "a.py"))) :=
  trim_intersection sampleSelf c7scan [] (by decide) (by decide) "a.py"
    (by decide) (by decide)

/-- **C6.**  `trim()` with no arguments removes all findings (and the file
key) of every path that does not exist on disk, and leaves the findings of
every path that does exist unchanged. -/
theorem trim_default_deletes_missing (self : SecretsCollection)
    (existsOnDisk : String → Bool) (f : String) (hf : f ∈ files self) :
    (existsOnDisk f = false → f ∉ files (trimDefault self existsOnDisk)) ∧
    (existsOnDisk f = true →
      f ∈ files (trimDefault self existsOnDisk) ∧
      lookupFile (trimDefault self existsOnDisk).data f = lookupFile self.data f) := by
  have hs1 : keys (trimStep1 self (⟨[]⟩ : SecretsCollection)) = [] := rfl
  have hmem : ∀ g : String,
      (g ∈ (files self).filter (fun x => !existsOnDisk x)) ↔
      (g ∈ files self ∧ existsOnDisk g = false) := by
    intro g
    rw [List.mem_filter]
    simp
  constructor
  · intro hex
    show f ∉ files (trim self ⟨[]⟩ ((files self).filter (fun x => !existsOnDisk x)))
    rw [trim_files]
    rintro (h | ⟨-, -, h2⟩)
    · rw [hs1] at h
      simp at h
    · exact h2 ((hmem f).mpr ⟨hf, hex⟩)
  · intro hex
    have hnfs : f ∉ (files self).filter (fun x => !existsOnDisk x) := by
      intro hm
      rw [hmem f] at hm
      rw [hm.2] at hex
      exact Bool.noConfusion hex
    constructor
    · show f ∈ files (trim self ⟨[]⟩ ((files self).filter (fun x => !existsOnDisk x)))
      rw [trim_files]
      refine Or.inr ⟨hf, ?_, hnfs⟩
      rw [hs1]
      simp
    · show lookupFile
          (trim self ⟨[]⟩ ((files self).filter (fun x => !existsOnDisk x))).data f = _
      rw [trim_lookup]
      rw [if_neg (by rw [hs1]; simp)]
      rw [if_neg hnfs]

theorem trim_default_deletes_missing_witness :
    ((c6exists "gone.py" = false → "gone.py" ∉ files (trimDefault c6self c6exists)) ∧
      (c6exists "gone.py" = true →
        "gone.py" ∈ files (trimDefault c6self c6exists) ∧
        lookupFile (trimDefault c6self c6exists).data "gone.py" =
          lookupFile c6self.data "gone.py")) ∧
    ((c6exists "kept.py" = false → "kept.py" ∉ files (trimDefault c6self c6exists)) ∧
      (c6exists "kept.py" = true →
        "kept.py" ∈ files (trimDefault c6self c6exists) ∧
        lookupFile (trimDefault c6self c6exists).data "kept.py" =
          lookupFile c6self.data "kept.py")) :=
  ⟨trim_default_deletes_missing c6self c6exists "gone.py" (by decide),
   trim_default_deletes_missing c6self c6exists "kept.py" (by decide)⟩

/-- **C7.**  A finding kept by `trim` has its line number overwritten with
the matching rescanned finding's line number exactly when its own line
number was non-zero; a kept finding with line number zero keeps zero.  All
other fields of the kept finding are preserved. -/
theorem trim_line_refresh (self scanned : SecretsCollection) (fileset : List String)
    (hw1 : WF self) (hw2 : WF scanned) (f : String)
    (hf1 : f ∈ files self) (hf2 : f ∈ files scanned)
    (r : PotentialSecret) (hr : r ∈ lookupFile scanned.data f)
    (o : PotentialSecret) (ho : findByKey (lookupFile self.data f) (idKey r) = some o) :
    updateLine o r ∈ lookupFile (trim self scanned fileset).data f ∧
    (updateLine o r).line_number = (if o.line_number = 0 then 0 else r.line_number) ∧
    idKey (updateLine o r) = idKey o ∧
    (updateLine o r).is_secret = o.is_secret ∧
    (updateLine o r).is_verified = o.is_verified := by
  have hsn : ((lookupFile self.data f).map idKey).Nodup :=
    hw1.2 _ (lookupFile_mem hf1)
  have hos := findByKey_some ho
  have hkept : updateLine o r ∈
      trimmedSecrets (lookupFile self.data f) (lookupFile scanned.data f) :=
    (mem_trimmedSecrets_iff hsn _).mpr ⟨o, hos.1, r, hr, hos.2, rfl⟩
  have hne : trimmedSecrets (lookupFile self.data f) (lookupFile scanned.data f) ≠ [] :=
    List.ne_nil_of_mem hkept
  have spec := trimStep1_spec self scanned.data hw2.1 f
  have hk1 : f ∈ keys (trimStep1 self scanned) := spec.1.mpr ⟨hf2, hf1, hne⟩
  refine ⟨?_, ?_, ?_, ?_, ?_⟩
  · rw [trim_lookup, if_pos hk1]
    rw [spec.2 hk1]
    exact hkept
  · by_cases h0 : o.line_number = 0
    · rw [if_pos h0]
      unfold updateLine
      rw [if_neg (by simp [h0])]
      exact h0
    · rw [if_neg h0]
      unfold updateLine
      rw [if_pos h0]
  · unfold updateLine idKey
    by_cases h0 : o.line_number ≠ 0 <;> simp [h0]
  · unfold updateLine
    by_cases h0 : o.line_number ≠ 0 <;> simp [h0]
  · unfold updateLine
    by_cases h0 : o.line_number ≠ 0 <;> simp [h0]

theorem trim_line_refresh_witness :
    updateLine sampleCur c7scanSec ∈
      lookupFile (trim sampleSelf c7scan []).data "a.py" ∧
    (updateLine sampleCur c7scanSec).line_number =
      (if sampleCur.line_number = 0 then 0 else c7scanSec.line_number) ∧
    idKey (updateLine sampleCur c7scanSec) = idKey sampleCur ∧
    (updateLine sampleCur c7scanSec).is_secret = sampleCur.is_secret ∧
    (updateLine sampleCur c7scanSec).is_verified = sampleCur.is_verified :=
  trim_line_refresh sampleSelf c7scan [] (by decide) (by decide) "a.py" (by decide)
    (by decide) c7scanSec (by decide) sampleCur (by decide)

/-! ## Lemmas about `__sub__` -/

theorem sub_keys_part1 (A : SecretsCollection) (l : List (String × List PotentialSecret))
    (f : String) :
    (f ∈ keys (l.filterMap (fun p =>
      if p.1 ∈ files A then
        some (p.1, (lookupFile A.data p.1).filter
          (fun s => decide (findByKey p.2 (idKey s) = none)))
      else none))) ↔ (f ∈ keys l ∧ f ∈ files A) := by
  induction l with
  | nil => simp [keys]
  | cons p rest ih =>
    rw [List.filterMap_cons]
    by_cases hA : p.1 ∈ files A
    · rw [if_pos hA]
      show f ∈ keys ((p.1, _) :: _) ↔ _
      rw [show keys ((p.1, (lookupFile A.data p.1).filter
            (fun s => decide (findByKey p.2 (idKey s) = none))) ::
          (rest.filterMap _)) = p.1 :: keys (rest.filterMap _) from rfl]
      rw [show keys (p :: rest) = p.1 :: keys rest from rfl]
      rw [List.mem_cons, List.mem_cons, ih]
      constructor
      · rintro (h | ⟨h1, h2⟩)
        · exact ⟨Or.inl h, h ▸ hA⟩
        · exact ⟨Or.inr h1, h2⟩
      · rintro ⟨h1 | h1, h2⟩
        · exact Or.inl h1
        · exact Or.inr ⟨h1, h2⟩
    · rw [if_neg hA]
      rw [show keys (p :: rest) = p.1 :: keys rest from rfl, List.mem_cons, ih]
      constructor
      · rintro ⟨h1, h2⟩
        exact ⟨Or.inr h1, h2⟩
      · rintro ⟨h1 | h1, h2⟩
        · exact absurd (h1 ▸ h2) hA
        · exact ⟨h1, h2⟩

theorem sub_lookup_part1 (A : SecretsCollection) (l : List (String × List PotentialSecret))
    (f : String) (hf : f ∈ files A) (hfl : f ∈ keys l) :
    lookupFile (l.filterMap (fun p =>
      if p.1 ∈ files A then
        some (p.1, (lookupFile A.data p.1).filter
          (fun s => decide (findByKey p.2 (idKey s) = none)))
      else none)) f =
    (lookupFile A.data f).filter
      (fun s => decide (findByKey (lookupFile l f) (idKey s) = none)) := by
  induction l with
  | nil => simp [keys] at hfl
  | cons p rest ih =>
    rw [List.filterMap_cons]
    by_cases he : p.1 = f
    · by_cases hA : p.1 ∈ files A
      · rw [if_pos hA]
        subst he
        rw [lookupFile, if_pos rfl, lookupFile, if_pos rfl]
      · exact absurd (he ▸ hA) (fun h => h hf)
    · have hfl2 : f ∈ keys rest := by
        rw [show keys (p :: rest) = p.1 :: keys rest from rfl, List.mem_cons] at hfl
        exact hfl.resolve_left (fun h => he h.symm)
      by_cases hA : p.1 ∈ files A
      · rw [if_pos hA]
        rw [lookupFile, if_neg he, lookupFile, if_neg he]
        exact ih hfl2
      · rw [if_neg hA]
        rw [lookupFile, if_neg he]
        exact ih hfl2

/-- **C4.**  `subtract(A, B)` (the source's `__sub__`, a non-mutating
operation returning a fresh collection): for every file of `B`, the result's
set is the identity-key set difference of `A`'s and `B`'s sets for that
file, hence contains no identity key present in `B`'s set; files of `A`
missing from `B` keep their set unchanged. -/
theorem sub_spec (A B : SecretsCollection) (f : String) :
    (f ∈ files B →
      (lookupFile (sub A B).data f =
        (lookupFile A.data f).filter
          (fun s => decide (findByKey (lookupFile B.data f) (idKey s) = none)) ∧
       ∀ s ∈ lookupFile (sub A B).data f, ∀ t ∈ lookupFile B.data f,
         idKey s ≠ idKey t)) ∧
    (f ∈ files A → f ∉ files B →
      lookupFile (sub A B).data f = lookupFile A.data f) := by
  constructor
  · intro hfB
    have heq : lookupFile (sub A B).data f =
        (lookupFile A.data f).filter
          (fun s => decide (findByKey (lookupFile B.data f) (idKey s) = none)) := by
      show lookupFile (_ ++ _) f = _
      rw [lookupFile_append]
      by_cases hfA : f ∈ files A
      · rw [if_pos ((sub_keys_part1 A B.data f).mpr ⟨hfB, hfA⟩)]
        exact sub_lookup_part1 A B.data f hfA hfB
      · rw [if_neg (fun hm => hfA ((sub_keys_part1 A B.data f).mp hm).2)]
        rw [lookupFile_eq_nil (show f ∉ keys A.data from hfA), List.filter_nil]
        apply lookupFile_eq_nil
        intro hm
        rw [mem_keys_iff] at hm
        obtain ⟨p, hp, hpf⟩ := hm
        exact hfA (show f ∈ keys A.data from
          hpf ▸ List.mem_map_of_mem Prod.fst (List.mem_of_mem_filter hp))
    refine ⟨heq, ?_⟩
    intro s hs t ht
    rw [heq] at hs
    have hdec := List.of_mem_filter hs
    rw [decide_eq_true_eq] at hdec
    have hall := findByKey_eq_none.mp hdec
    exact Ne.symm (hall t ht)
  · intro hfA hfB
    show lookupFile (_ ++ _) f = _
    rw [lookupFile_append]
    rw [if_neg (fun hm => hfB ((sub_keys_part1 A B.data f).mp hm).1)]
    apply lookupFile_filter_pred
    intro p hp
    rw [hp]
    exact decide_eq_true hfB

theorem sub_spec_witness :
    (lookupFile (sub c4A c4B).data "a.py" =
      (lookupFile c4A.data "a.py").filter
        (fun s => decide (findByKey (lookupFile c4B.data "a.py") (idKey s) = none)) ∧
     ∀ s ∈ lookupFile (sub c4A c4B).data "a.py", ∀ t ∈ lookupFile c4B.data "a.py",
       idKey s ≠ idKey t) ∧
    lookupFile (sub c4A c4B).data "only.py" = lookupFile c4A.data "only.py" :=
  ⟨(sub_spec c4A c4B "a.py").1 (by decide),
   (sub_spec c4A c4B "only.py").2 (by decide) (by decide)⟩

/-! ## Lemmas about `__eq__` -/

theorem sameFiles_iff {a b : SecretsCollection} :
    sameFiles a b = true ↔ (∀ f, f ∈ files a ↔ f ∈ files b) := by
  unfold sameFiles
  rw [Bool.and_eq_true, List.all_eq_true, List.all_eq_true]
  constructor
  · rintro ⟨h1, h2⟩ f
    exact ⟨fun hf => of_decide_eq_true (h1 f hf), fun hf => of_decide_eq_true (h2 f hf)⟩
  · intro h
    exact ⟨fun f hf => decide_eq_true ((h f).mp hf),
      fun f hf => decide_eq_true ((h f).mpr hf)⟩

theorem sameKeys_iff {sa sb : List PotentialSecret} :
    sameKeys sa sb = true ↔ (∀ k, k ∈ idKeys sa ↔ k ∈ idKeys sb) := by
  unfold sameKeys
  rw [Bool.and_eq_true, List.all_eq_true, List.all_eq_true]
  constructor
  · rintro ⟨h1, h2⟩ k
    exact ⟨fun hk => of_decide_eq_true (h1 k hk), fun hk => of_decide_eq_true (h2 k hk)⟩
  · intro h
    exact ⟨fun k hk => decide_eq_true ((h k).mp hk),
      fun k hk => decide_eq_true ((h k).mpr hk)⟩

theorem eqCollections_loose_iff (a b : SecretsCollection) :
    eqCollections a b false = true ↔
      ((∀ f, f ∈ files a ↔ f ∈ files b) ∧
       ∀ f k, k ∈ idKeys (lookupFile a.data f) ↔ k ∈ idKeys (lookupFile b.data f)) := by
  unfold eqCollections
  rw [Bool.and_eq_true, List.all_eq_true]
  constructor
  · rintro ⟨hsf, hper⟩
    have hfiles := sameFiles_iff.mp hsf
    refine ⟨hfiles, fun f k => ?_⟩
    by_cases hf : f ∈ files a
    · have h2 := hper f hf
      rw [Bool.and_eq_true] at h2
      exact sameKeys_iff.mp h2.1 k
    · have hfb : f ∉ files b := fun hb => hf ((hfiles f).mpr hb)
      rw [lookupFile_eq_nil (show f ∉ keys a.data from hf),
        lookupFile_eq_nil (show f ∉ keys b.data from hfb)]
  · rintro ⟨hfiles, hkeys⟩
    refine ⟨sameFiles_iff.mpr hfiles, fun f hf => ?_⟩
    rw [Bool.and_eq_true]
    exact ⟨sameKeys_iff.mpr (hkeys f), rfl⟩

theorem eq_strict_false_of_line_mismatch (a b : SecretsCollection) (f : String)
    (hf : f ∈ files a) (s : PotentialSecret) (hs : s ∈ lookupFile a.data f)
    (t : PotentialSecret) (ht : findByKey (lookupFile b.data f) (idKey s) = some t)
    (hl : s.line_number ≠ t.line_number) (h0s : s.line_number ≠ 0)
    (h0t : t.line_number ≠ 0) :
    eqCollections a b true = false := by
  cases heq : eqCollections a b true with
  | false => rfl
  | true =>
    exfalso
    unfold eqCollections at heq
    rw [Bool.and_eq_true, List.all_eq_true] at heq
    have h2 := heq.2 f hf
    rw [Bool.and_eq_true] at h2
    have h3 := h2.2
    rw [show (!true) = false from rfl, Bool.false_or, List.all_eq_true] at h3
    have h4 := h3 s hs
    rw [ht] at h4
    have h5 : strictPair s t = true := h4
    simp only [strictPair, Bool.and_eq_true] at h5
    have h6 := h5.2
    rw [if_neg (by rintro (h | h) <;> [exact h0s h; exact h0t h])] at h6
    exact hl (of_decide_eq_true h6)

theorem eq_strict_of_fields (a b : SecretsCollection)
    (hl : eqCollections a b false = true)
    (hfields : ∀ f ∈ files a, ∀ s ∈ lookupFile a.data f, ∀ t ∈ lookupFile b.data f,
      idKey s = idKey t → auditFieldsMatch s t = true) :
    eqCollections a b true = true := by
  unfold eqCollections at hl ⊢
  rw [Bool.and_eq_true, List.all_eq_true] at hl ⊢
  refine ⟨hl.1, fun f hf => ?_⟩
  have h2 := hl.2 f hf
  rw [Bool.and_eq_true] at h2 ⊢
  refine ⟨h2.1, ?_⟩
  rw [show (!true) = false from rfl, Bool.false_or, List.all_eq_true]
  intro s hs
  have hk : idKey s ∈ idKeys (lookupFile b.data f) :=
    (sameKeys_iff.mp h2.1 (idKey s)).mp (List.mem_map_of_mem idKey hs)
  obtain ⟨t, hft, hkt⟩ := findByKey_of_key_mem hk
  rw [hft]
  show strictPair s t = true
  have htmem : t ∈ lookupFile b.data f := (findByKey_some hft).1
  have hfe := hfields f hf s hs t htmem hkt.symm
  unfold idKey at hkt
  rw [Prod.mk.injEq] at hkt
  simp only [auditFieldsMatch, Bool.and_eq_true, decide_eq_true_eq] at hfe
  simp only [strictPair, Bool.and_eq_true, decide_eq_true_eq]
  obtain ⟨⟨⟨hfn, hsec⟩, hver⟩, hline⟩ := hfe
  exact ⟨⟨⟨⟨⟨hkt.2.symm, hfn⟩, hkt.1.symm⟩, hsec⟩, hver⟩, hline⟩

/-- **C3 (counterexample).**  The claim asserts that loosely equal
collections whose only line-number differences involve a zero (untracked)
side are strictly equal.  `c3a` and `c3b` are loosely equal, their unique
identity-matched pair differs in line number with one side zero, yet
`__eq__(strict=True)` is false because `is_verified` differs. -/
theorem eq_strict_zero_counterexample :
    eqCollections c3a c3b false = true ∧
    c3sa ∈ lookupFile c3a.data "a.py" ∧
    findByKey (lookupFile c3b.data "a.py") (idKey c3sa) = some c3sb ∧
    c3sa.line_number ≠ c3sb.line_number ∧ c3sa.line_number = 0 ∧
    eqCollections c3a c3b true = false := by
  decide

/-- **C3 (amended).**  Loose equality holds iff the collections have the
same file key set and, per file, the same identity-key sets.  An identity-
matched pair whose line numbers differ and are both non-zero makes strict
equality false.  Loosely equal collections all of whose identity-matched
pairs additionally agree on every remaining field — the line number being
exempt when either side's is zero — are strictly equal.  (The frozen claim
derives strict equality without the remaining-field agreement; the audit
fields may still differ, as `eq_strict_zero_counterexample` shows.) -/
theorem eq_loose_strict (a b : SecretsCollection) :
    (eqCollections a b false = true ↔
      ((∀ f, f ∈ files a ↔ f ∈ files b) ∧
       ∀ f k, k ∈ idKeys (lookupFile a.data f) ↔ k ∈ idKeys (lookupFile b.data f))) ∧
    (∀ f, f ∈ files a → ∀ s ∈ lookupFile a.data f, ∀ t,
      findByKey (lookupFile b.data f) (idKey s) = some t →
      s.line_number ≠ t.line_number → s.line_number ≠ 0 → t.line_number ≠ 0 →
      eqCollections a b true = false) ∧
    ((eqCollections a b false = true ∧
      (∀ f ∈ files a, ∀ s ∈ lookupFile a.data f, ∀ t ∈ lookupFile b.data f,
        idKey s = idKey t → auditFieldsMatch s t = true)) →
      eqCollections a b true = true) :=
  ⟨eqCollections_loose_iff a b,
   fun f hf s hs t ht h1 h2 h3 =>
     eq_strict_false_of_line_mismatch a b f hf s hs t ht h1 h2 h3,
   fun h => eq_strict_of_fields a b h.1 h.2⟩

theorem eq_loose_strict_witness :
    ((∀ f, f ∈ files c3a ↔ f ∈ files c3b2) ∧
     ∀ f k, k ∈ idKeys (lookupFile c3a.data f) ↔ k ∈ idKeys (lookupFile c3b2.data f)) ∧
    eqCollections c3a c3b2 true = true :=
  ⟨(eq_loose_strict c3a c3b2).1.mp (by decide),
   (eq_loose_strict c3a c3b2).2.2 ⟨by decide, by decide⟩⟩

/-! ## scan_diff: error propagation -/

/-- **C9.**  `scan_diff` propagates the external diff parser's failure
unchanged as a fatal `UnidiffParseError` (never swallowed, no fallback) and
turns the collaborator's `ImportError` into a distinct
`NotImplementedError`, so the caller can always distinguish "this diff is
malformed" from "diff scanning is unsupported". -/
theorem scan_diff_error_distinction (c : SecretsCollection) (out : ScanDiffOutcome) :
    (scan_diff c out = Except.error ScanDiffError.unidiffParseError ↔
      out = ScanDiffOutcome.parseFailure) ∧
    (scan_diff c out = Except.error ScanDiffError.notImplementedError ↔
      out = ScanDiffOutcome.importFailure) ∧
    ScanDiffError.unidiffParseError ≠ ScanDiffError.notImplementedError := by
  refine ⟨?_, ?_, by decide⟩ <;> cases out <;> simp [scan_diff]

theorem scan_diff_error_distinction_witness :
    (scan_diff sampleSelf ScanDiffOutcome.parseFailure =
        Except.error ScanDiffError.unidiffParseError ↔
      ScanDiffOutcome.parseFailure = ScanDiffOutcome.parseFailure) ∧
    (scan_diff sampleSelf ScanDiffOutcome.parseFailure =
        Except.error ScanDiffError.notImplementedError ↔
      ScanDiffOutcome.parseFailure = ScanDiffOutcome.importFailure) ∧
    ScanDiffError.unidiffParseError ≠ ScanDiffError.notImplementedError :=
  scan_diff_error_distinction sampleSelf ScanDiffOutcome.parseFailure

/-! ## Lemmas about `__iter__` -/

theorem idKey_of_displayKey {a b : PotentialSecret} (h : displayKey a = displayKey b) :
    idKey a = idKey b :=
  congrArg (fun x => ofLex (ofLex x).2) h

theorem nodup_displayKey {l : List PotentialSecret} (hn : (l.map idKey).Nodup) :
    (l.map displayKey).Nodup := by
  rw [List.Nodup, List.pairwise_map] at hn ⊢
  exact hn.imp (fun h hd => h (idKey_of_displayKey hd))

theorem sorted_secrets_lt {l : List PotentialSecret} (hs : l.Sorted secLE)
    (hn : (l.map displayKey).Nodup) : l.Pairwise secLT := by
  rw [List.Nodup, List.pairwise_map] at hn
  exact (hs.and hn).imp (fun h => lt_of_le_of_ne h.1 h.2)

theorem eq_of_perm_sorted_secLT {l₁ l₂ : List PotentialSecret} (hp : l₁.Perm l₂)
    (hs₁ : l₁.Pairwise secLT) (hs₂ : l₂.Pairwise secLT) : l₁ = l₂ :=
  @List.eq_of_perm_of_sorted _ secLT ⟨fun _ _ h h2 => absurd h2 (lt_asymm h)⟩ _ _ hp hs₁ hs₂

theorem WF_lookup_nodup {c : SecretsCollection} (hw : WF c) (f : String) :
    ((lookupFile c.data f).map idKey).Nodup := by
  by_cases hf : f ∈ files c
  · exact hw.2 _ (lookupFile_mem hf)
  · rw [lookupFile_eq_nil hf]
    exact List.nodup_nil

theorem sorted_iter_flatMap (S : List String) (g : String → List PotentialSecret)
    (hS : S.Pairwise (· < ·)) (hg : ∀ f ∈ S, (g f).Pairwise secLT) :
    (S.flatMap (fun f => (g f).map (fun s => (f, s)))).Pairwise pairLT := by
  induction S with
  | nil => simp
  | cons f fs ih =>
    rw [List.flatMap_cons, List.pairwise_append]
    have hcons := List.pairwise_cons.mp hS
    refine ⟨?_, ?_, ?_⟩
    · rw [List.pairwise_map]
      exact (hg f (List.mem_cons_self _ _)).imp (fun h => Or.inr ⟨rfl, h⟩)
    · exact ih hcons.2 (fun x hx => hg x (List.mem_cons_of_mem _ hx))
    · intro x hx y hy
      rw [List.mem_map] at hx
      obtain ⟨s, hsx, hxeq⟩ := hx
      rw [List.mem_flatMap] at hy
      obtain ⟨f2, hf2, hy2⟩ := hy
      rw [List.mem_map] at hy2
      obtain ⟨t, hty, hyeq⟩ := hy2
      subst hxeq
      subst hyeq
      exact Or.inl (hcons.1 f2 hf2)

theorem flatMap_map_congr (S : List String)
    {g₁ g₂ : String → List PotentialSecret} (h : ∀ f ∈ S, g₁ f = g₂ f) :
    S.flatMap (fun f => (g₁ f).map (fun s => (f, s))) =
      S.flatMap (fun f => (g₂ f).map (fun s => (f, s))) := by
  induction S with
  | nil => rfl
  | cons f fs ih =>
    rw [List.flatMap_cons, List.flatMap_cons, h f (List.mem_cons_self _ _),
      ih (fun x hx => h x (List.mem_cons_of_mem _ hx))]

/-- **C8.**  Iteration yields files in ascending path order and, within a
file, findings in strictly ascending display-key order; consequently the
sequence is fully determined by the contents: two well-formed collections
with the same file set and the same per-file finding sets (in any insertion
order) iterate identically. -/
theorem iter_sorted_deterministic (c₁ c₂ : SecretsCollection)
    (h₁ : WF c₁) (h₂ : WF c₂)
    (hfiles : (files c₁).Perm (files c₂))
    (hsecs : ∀ f ∈ files c₁, (lookupFile c₁.data f).Perm (lookupFile c₂.data f)) :
    (iterList c₁).Pairwise pairLT ∧ iterList c₁ = iterList c₂ := by
  have hsecs2 : ∀ f, (lookupFile c₁.data f).Perm (lookupFile c₂.data f) := by
    intro f
    by_cases hf : f ∈ files c₁
    · exact hsecs f hf
    · rw [lookupFile_eq_nil hf, lookupFile_eq_nil (fun hb => hf (hfiles.mem_iff.mpr hb))]
  have hS₁sorted : (List.insertionSort (· ≤ ·) (files c₁)).Sorted (· ≤ ·) :=
    List.sorted_insertionSort _ _
  have hS₂sorted : (List.insertionSort (· ≤ ·) (files c₂)).Sorted (· ≤ ·) :=
    List.sorted_insertionSort _ _
  have hS₁perm : (List.insertionSort (· ≤ ·) (files c₁)).Perm (files c₁) :=
    List.perm_insertionSort _ _
  have hS₂perm : (List.insertionSort (· ≤ ·) (files c₂)).Perm (files c₂) :=
    List.perm_insertionSort _ _
  have hS₁nodup : (List.insertionSort (· ≤ ·) (files c₁)).Nodup :=
    hS₁perm.nodup_iff.mpr h₁.1
  have hS₁lt : (List.insertionSort (· ≤ ·) (files c₁)).Pairwise (· < ·) :=
    hS₁sorted.lt_of_le hS₁nodup
  have hsorted₁ : ∀ f,
      (List.insertionSort secLE (lookupFile c₁.data f)).Pairwise secLT := by
    intro f
    apply sorted_secrets_lt (List.sorted_insertionSort _ _)
    exact ((List.perm_insertionSort secLE _).map displayKey).nodup_iff.mpr
      (nodup_displayKey (WF_lookup_nodup h₁ f))
  have hsorted₂ : ∀ f,
      (List.insertionSort secLE (lookupFile c₂.data f)).Pairwise secLT := by
    intro f
    apply sorted_secrets_lt (List.sorted_insertionSort _ _)
    exact ((List.perm_insertionSort secLE _).map displayKey).nodup_iff.mpr
      (nodup_displayKey (WF_lookup_nodup h₂ f))
  constructor
  · exact sorted_iter_flatMap _ _ hS₁lt (fun f _ => hsorted₁ f)
  · have hSeq : List.insertionSort (· ≤ ·) (files c₁) =
        List.insertionSort (· ≤ ·) (files c₂) :=
      List.eq_of_perm_of_sorted ((hS₁perm.trans hfiles).trans hS₂perm.symm)
        hS₁sorted hS₂sorted
    show (List.insertionSort (· ≤ ·) (files c₁)).flatMap _ =
      (List.insertionSort (· ≤ ·) (files c₂)).flatMap _
    rw [← hSeq]
    apply flatMap_map_congr
    intro f _
    exact eq_of_perm_sorted_secLT
      (((List.perm_insertionSort secLE _).trans (hsecs2 f)).trans
        (List.perm_insertionSort secLE _).symm)
      (hsorted₁ f) (hsorted₂ f)

theorem iter_sorted_deterministic_witness :
    (iterList ⟨[("b.py", [c4only]), ("a.py", [c1new, sampleCur])]⟩).Pairwise pairLT ∧
    iterList ⟨[("b.py", [c4only]), ("a.py", [c1new, sampleCur])]⟩ =
      iterList ⟨[("a.py", [sampleCur, c1new]), ("b.py", [c4only])]⟩ :=
  iter_sorted_deterministic ⟨[("b.py", [c4only]), ("a.py", [c1new, sampleCur])]⟩
    ⟨[("a.py", [sampleCur, c1new]), ("b.py", [c4only])]⟩
    (by decide) (by decide) (by decide) (by decide)

/-! ## `exactly_equals` is not read-only -/

/-- **C10 (code violation).**  The claim says `exactly_equals` is a
read-only, repeatable query.  In the source, `valuesA = vars(secretA);
valuesA.pop('secret_value')` operates on the live attribute dictionary of
the finding, so the first call deletes the `secret_value` attribute from
every compared finding of both operands, and a second identical call
raises `KeyError` when popping the now-absent attribute.  Evaluated on two
single-finding collections: the first call returns `True` but hands back
mutated findings (`secret_value` gone), and rerunning on those mutated
collections fails. -/
theorem exactly_equals_mutates :
    exactlyEqualsMut [("a.py", [c10a])] [("a.py", [c10b])] =
      some (true, [("a.py", [c10a1])], [("a.py", [c10b1])]) ∧
    c10a.secret_value = some "v1" ∧ c10a1.secret_value = none ∧
    exactlyEqualsMut [("a.py", [c10a1])] [("a.py", [c10b1])] = none :=
  ⟨by decide, by decide, by decide, by decide⟩

end DetectSecrets
